import Mathlib

/-!
Verification of the isciml mesh-to-kernel marshaling and distributed
partitioning layer, shallowly embedded from `src/isciml.py`.

Python floats are modelled by exact rationals (`ℚ`); Python ints by `ℕ`.
`np.sqrt` is kept as an explicit function parameter where the code calls it,
so no theorem below depends on any property of the square root.
-/

namespace Isciml

/-! ### Distributed batch partitioner (isciml.py lines 413-419)

`files_per_proc = total_files / size` is Python float division, modelled as
exact rational division; `int(...)` on a non-negative value is the floor. -/

/-- Embedding of `files_per_proc = total_files / size` (line 413). -/
def filesPerProc (T P : ℕ) : ℚ := (T : ℚ) / (P : ℚ)

/-- Embedding of `start_file_index = int(rank * files_per_proc)` (line 414). -/
def startIdx (T P r : ℕ) : ℕ := ⌊(r : ℚ) * filesPerProc T P⌋₊

/-- Embedding of lines 416-419: the last rank takes `end = total_files`,
every other rank takes `end = int((rank + 1) * files_per_proc)`. -/
def endIdx (T P r : ℕ) : ℕ :=
  if r = P - 1 then T else ⌊((r : ℚ) + 1) * filesPerProc T P⌋₊

/-- The rank's half-open range of file indices, as a finite set. -/
def rankRange (T P r : ℕ) : Finset ℕ := Finset.Ico (startIdx T P r) (endIdx T P r)

theorem startIdx_eq_div (T P r : ℕ) : startIdx T P r = r * T / P := by
  unfold startIdx filesPerProc
  rw [mul_div_assoc']
  rw [show ((r : ℚ) * T) = ((r * T : ℕ) : ℚ) by push_cast; ring]
  rw [Nat.floor_div_nat, Nat.floor_natCast]

theorem endIdx_eq_div (T P r : ℕ) (hP : 0 < P) (hr : r < P) :
    endIdx T P r = (r + 1) * T / P := by
  unfold endIdx
  by_cases h : r = P - 1
  · subst h
    rw [if_pos rfl, Nat.sub_add_cancel hP, Nat.mul_div_cancel_left T hP]
  · rw [if_neg h]
    unfold filesPerProc
    rw [mul_div_assoc']
    rw [show ((r : ℚ) + 1) * T = (((r + 1) * T : ℕ) : ℚ) by push_cast; ring]
    rw [Nat.floor_div_nat, Nat.floor_natCast]

theorem rankRange_eq_div (T P r : ℕ) (hP : 0 < P) (hr : r < P) :
    rankRange T P r = Finset.Ico (r * T / P) ((r + 1) * T / P) := by
  rw [rankRange, startIdx_eq_div, endIdx_eq_div T P r hP hr]

theorem biUnion_div_ranges (T P : ℕ) (hP : 0 < P) :
    ∀ k, (Finset.range k).biUnion
        (fun r => Finset.Ico (r * T / P) ((r + 1) * T / P)) =
      Finset.Ico 0 (k * T / P) := by
  intro k
  induction k with
  | zero => simp
  | succ k ih =>
    rw [Finset.range_succ, Finset.biUnion_insert, ih, Finset.union_comm,
      Finset.Ico_union_Ico_eq_Ico (Nat.zero_le _)
        (Nat.div_le_div_right (Nat.mul_le_mul_right T (Nat.le_succ k)))]

/-- Claim C1: for every `total_files = T ≥ 1` and `process_count = P ≤ T`, the
per-rank ranges `[start, end)` computed by lines 413-419 of `isciml.py`
(`start = int(rank * T/P)`; `end = T` for the last rank, else
`int((rank+1) * T/P)`) are contiguous, pairwise disjoint, and their union is
exactly `[0, T)`; in particular for `T = 10`, `P = 3` ranks 0, 1, 2 receive
`[0,3)`, `[3,6)`, `[6,10)`. -/
theorem c1_partition_ranges (T P : ℕ) (hT : 1 ≤ T) (hP : 0 < P) (hPT : P ≤ T) :
    (∀ r, r + 1 < P → endIdx T P r = startIdx T P (r + 1)) ∧
    (∀ r s, r < P → s < P → r ≠ s →
      Disjoint (rankRange T P r) (rankRange T P s)) ∧
    (Finset.range P).biUnion (rankRange T P) = Finset.range T ∧
    (rankRange 10 3 0 = Finset.Ico 0 3 ∧ rankRange 10 3 1 = Finset.Ico 3 6 ∧
      rankRange 10 3 2 = Finset.Ico 6 10) := by
  have hend : ∀ r, r < P → endIdx T P r = (r + 1) * T / P :=
    fun r hr => endIdx_eq_div T P r hP hr
  refine ⟨?_, ?_, ?_, ?_, ?_, ?_⟩
  · intro r hr
    rw [hend r (by omega), startIdx_eq_div]
  · have key : ∀ r s, r < s → s < P →
        Disjoint (rankRange T P r) (rankRange T P s) := by
      intro r s hrs hs
      have hle : endIdx T P r ≤ startIdx T P s := by
        rw [hend r (by omega), startIdx_eq_div]
        exact Nat.div_le_div_right (Nat.mul_le_mul_right T (by omega))
      rw [Finset.disjoint_left]
      intro x hx hx'
      rw [rankRange, Finset.mem_Ico] at hx hx'
      omega
    intro r s hr hs hne
    rcases Nat.lt_or_ge r s with h | h
    · exact key r s h hs
    · exact (key s r (by omega) hr).symm
  · rw [Finset.biUnion_congr rfl
        (fun r hr => rankRange_eq_div T P r hP (Finset.mem_range.mp hr)),
      biUnion_div_ranges T P hP P, Nat.mul_div_cancel_left T hP,
      Finset.range_eq_Ico]
  · rw [rankRange_eq_div 10 3 0 (by norm_num) (by norm_num)]
  · rw [rankRange_eq_div 10 3 1 (by norm_num) (by norm_num)]
  · rw [rankRange_eq_div 10 3 2 (by norm_num) (by norm_num)]

theorem c1_partition_ranges_witness :
    (∀ r, r + 1 < 3 → endIdx 10 3 r = startIdx 10 3 (r + 1)) ∧
    (∀ r s, r < 3 → s < 3 → r ≠ s →
      Disjoint (rankRange 10 3 r) (rankRange 10 3 s)) ∧
    (Finset.range 3).biUnion (rankRange 10 3) = Finset.range 10 ∧
    (rankRange 10 3 0 = Finset.Ico 0 3 ∧ rankRange 10 3 1 = Finset.Ico 3 6 ∧
      rankRange 10 3 2 = Finset.Ico 6 10) :=
  c1_partition_ranges 10 3 (by norm_num) (by norm_num) (by norm_num)

/-- Claim C2 is false as stated: for `total_files = 5`, `process_count = 3`,
rank 1 is not the last rank yet receives `2 ≠ floor(5/3) = 1` files. -/
theorem c2_counterexample :
    1 < 3 - 1 ∧ endIdx 5 3 1 - startIdx 5 3 1 ≠ 5 / 3 := by
  constructor
  · norm_num
  · rw [endIdx_eq_div 5 3 1 (by norm_num) (by norm_num), startIdx_eq_div]
    norm_num

/-- Claim C2, amended: for every `T` and `0 < P ≤ T`, every rank `r < P - 1`
receives either `floor(T/P)` or `floor(T/P) + 1` files (not always exactly
`floor(T/P)`), and the last rank's range ends at `T`. -/
theorem c2_share_amended (T P r : ℕ) (hP : 0 < P) (hPT : P ≤ T) (hr : r < P - 1) :
    (endIdx T P r - startIdx T P r = T / P ∨
      endIdx T P r - startIdx T P r = T / P + 1) ∧
    endIdx T P (P - 1) = T := by
  constructor
  · rw [endIdx_eq_div T P r hP (by omega), startIdx_eq_div]
    have hdiv : (r + 1) * T / P = r * T / P + T / P +
        (if P ≤ r * T % P + T % P then 1 else 0) := by
      rw [show (r + 1) * T = r * T + T by ring, Nat.add_div hP]
    have hmono : r * T / P ≤ (r + 1) * T / P :=
      Nat.div_le_div_right (Nat.mul_le_mul_right T (by omega))
    by_cases h : P ≤ r * T % P + T % P
    · rw [if_pos h] at hdiv; omega
    · rw [if_neg h] at hdiv; omega
  · rw [endIdx, if_pos rfl]

theorem c2_share_amended_witness :
    (endIdx 5 3 1 - startIdx 5 3 1 = 5 / 3 ∨
      endIdx 5 3 1 - startIdx 5 3 1 = 5 / 3 + 1) ∧
    endIdx 5 3 (3 - 1) = 5 :=
  c2_share_amended 5 3 1 (by norm_num) (by norm_num) (by norm_num)

/-! ### Mesh geometry engine (isciml.py lines 33-107)

Node coordinates are triples of rationals.  A mesh holds the point count,
cell count, node array and tetrahedral connectivity exactly as the `Mesh`
object does after construction; `getCentroids` and `getVolumes` embed the
`get_centroids` / `get_volumes` methods. -/

/-- A 3-D point, i.e. one row of `mesh.nodes`. -/
structure Pt where
  x : ℚ
  y : ℚ
  z : ℚ
deriving DecidableEq

/-- One row of `tet_nodes`: the four node indices of a tetrahedron. -/
structure TetNodes where
  n1 : ℕ
  n2 : ℕ
  n3 : ℕ
  n4 : ℕ
deriving DecidableEq

/-- Mesh state after `__init__` (lines 51-54): `npts`, `ncells`, `nodes`,
`tet_nodes`, plus the cached `centroids` and `volumes` the driver fills in
by calling `get_centroids` / `get_volumes` before solving. -/
structure Mesh where
  npts : ℕ
  ncells : ℕ
  nodes : List Pt
  tetNodes : List TetNodes
  centroids : List Pt
  volumes : List ℚ

/-- Array read `nodes[i]`; the source assumes the index is in range
(mesh invariant), out-of-range reads return the origin. -/
def nodeAt (nodes : List Pt) (i : ℕ) : Pt := nodes.getD i ⟨0, 0, 0⟩

/-- The signed parallelepiped product `pv` of lines 99-103, transcribed
term for term from the source. -/
def tetPv (p1 p2 p3 p4 : Pt) : ℚ :=
  (p4.x - p1.x) * ((p2.y - p1.y) * (p3.z - p1.z) - (p2.z - p1.z) * (p3.y - p1.y))
    + (p4.y - p1.y) * ((p2.z - p1.z) * (p3.x - p1.x) - (p2.x - p1.x) * (p3.z - p1.z))
    + (p4.z - p1.z) * ((p2.x - p1.x) * (p3.y - p1.y) - (p2.y - p1.y) * (p3.x - p1.x))

/-- `vot[itet] = np.abs(pv / 6.0)` (line 104). -/
def tetVolume (p1 p2 p3 p4 : Pt) : ℚ := |tetPv p1 p2 p3 p4 / 6|

/-- Embedding of `Mesh.get_volumes` (lines 77-105): one volume per
connectivity row, in order. -/
def getVolumes (m : Mesh) : List ℚ :=
  m.tetNodes.map fun t =>
    tetVolume (nodeAt m.nodes t.n1) (nodeAt m.nodes t.n2)
      (nodeAt m.nodes t.n3) (nodeAt m.nodes t.n4)

/-- Embedding of `Mesh.get_centroids` (lines 61-73). -/
def getCentroids (m : Mesh) : List Pt :=
  m.tetNodes.map fun t =>
    let a := nodeAt m.nodes t.n1
    let b := nodeAt m.nodes t.n2
    let c := nodeAt m.nodes t.n3
    let d := nodeAt m.nodes t.n4
    ⟨(a.x + b.x + c.x + d.x) / 4, (a.y + b.y + c.y + d.y) / 4,
      (a.z + b.z + c.z + d.z) / 4⟩

/-! Reference definitions following the spec's words (§4.1), used only to
compare against the transcribed source formula. -/

/-- Vector difference of two points. -/
def vsub (p q : Pt) : Pt := ⟨p.x - q.x, p.y - q.y, p.z - q.z⟩

/-- Cross product, from the spec's `scalar_triple_product`. -/
def cross (u v : Pt) : Pt :=
  ⟨u.y * v.z - u.z * v.y, u.z * v.x - u.x * v.z, u.x * v.y - u.y * v.x⟩

/-- Dot product. -/
def dot (u v : Pt) : ℚ := u.x * v.x + u.y * v.y + u.z * v.z

/-- `scalar_triple_product(a, b, c) = a . (b x c)`. -/
def scalarTriple (a b c : Pt) : ℚ := dot a (cross b c)

/-- Spec §4.1 volume: `|scalar_triple_product(v2-v1, v3-v1, v4-v1)| / 6`. -/
def specVolume (p1 p2 p3 p4 : Pt) : ℚ :=
  |scalarTriple (vsub p2 p1) (vsub p3 p1) (vsub p4 p1)| / 6

theorem tetVolume_eq_specVolume (p1 p2 p3 p4 : Pt) :
    tetVolume p1 p2 p3 p4 = specVolume p1 p2 p3 p4 := by
  rw [tetVolume, specVolume, abs_div]
  norm_num
  rw [show scalarTriple (vsub p2 p1) (vsub p3 p1) (vsub p4 p1) =
      tetPv p1 p2 p3 p4 by
    simp only [scalarTriple, dot, cross, vsub, tetPv]; ring]

theorem tetVolume_nonneg (p1 p2 p3 p4 : Pt) : 0 ≤ tetVolume p1 p2 p3 p4 :=
  abs_nonneg _

theorem tetPv_swap12 (p1 p2 p3 p4 : Pt) :
    tetPv p2 p1 p3 p4 = -tetPv p1 p2 p3 p4 := by
  simp only [tetPv]; ring

theorem tetPv_swap23 (p1 p2 p3 p4 : Pt) :
    tetPv p1 p3 p2 p4 = -tetPv p1 p2 p3 p4 := by
  simp only [tetPv]; ring

theorem tetPv_swap34 (p1 p2 p3 p4 : Pt) :
    tetPv p1 p2 p4 p3 = -tetPv p1 p2 p3 p4 := by
  simp only [tetPv]; ring

theorem tetPv_swap13 (p1 p2 p3 p4 : Pt) :
    tetPv p3 p2 p1 p4 = -tetPv p1 p2 p3 p4 := by
  simp only [tetPv]; ring

theorem tetPv_swap14 (p1 p2 p3 p4 : Pt) :
    tetPv p4 p2 p3 p1 = -tetPv p1 p2 p3 p4 := by
  simp only [tetPv]; ring

theorem tetPv_swap24 (p1 p2 p3 p4 : Pt) :
    tetPv p1 p4 p3 p2 = -tetPv p1 p2 p3 p4 := by
  simp only [tetPv]; ring

theorem tetVolume_neg_pv (p1 p2 p3 p4 q1 q2 q3 q4 : Pt)
    (h : tetPv q1 q2 q3 q4 = -tetPv p1 p2 p3 p4) :
    tetVolume q1 q2 q3 q4 = tetVolume p1 p2 p3 p4 := by
  rw [tetVolume, tetVolume, h, neg_div, abs_neg]

theorem tetVolume_swap_args (i j : Fin 4) (vs : Fin 4 → Pt) :
    tetVolume (vs (Equiv.swap i j 0)) (vs (Equiv.swap i j 1))
      (vs (Equiv.swap i j 2)) (vs (Equiv.swap i j 3)) =
    tetVolume (vs 0) (vs 1) (vs 2) (vs 3) := by
  fin_cases i <;> fin_cases j <;>
    simp only [Equiv.swap_apply_def, Fin.isValue] <;>
    norm_num <;>
    first
      | rfl
      | exact tetVolume_neg_pv _ _ _ _ _ _ _ _ (tetPv_swap12 _ _ _ _)
      | exact tetVolume_neg_pv _ _ _ _ _ _ _ _ (tetPv_swap13 _ _ _ _)
      | exact tetVolume_neg_pv _ _ _ _ _ _ _ _ (tetPv_swap14 _ _ _ _)
      | exact tetVolume_neg_pv _ _ _ _ _ _ _ _ (tetPv_swap23 _ _ _ _)
      | exact tetVolume_neg_pv _ _ _ _ _ _ _ _ (tetPv_swap24 _ _ _ _)
      | exact tetVolume_neg_pv _ _ _ _ _ _ _ _ (tetPv_swap34 _ _ _ _)

theorem tetVolume_perm (σ : Equiv.Perm (Fin 4)) :
    ∀ vs : Fin 4 → Pt,
      tetVolume (vs (σ 0)) (vs (σ 1)) (vs (σ 2)) (vs (σ 3)) =
      tetVolume (vs 0) (vs 1) (vs 2) (vs 3) := by
  refine Equiv.Perm.swap_induction_on σ ?_ ?_
  · intro vs; simp
  · intro f x y hxy ih vs
    calc tetVolume (vs ((Equiv.swap x y * f) 0)) (vs ((Equiv.swap x y * f) 1))
          (vs ((Equiv.swap x y * f) 2)) (vs ((Equiv.swap x y * f) 3))
        = tetVolume ((vs ∘ Equiv.swap x y) (f 0)) ((vs ∘ Equiv.swap x y) (f 1))
          ((vs ∘ Equiv.swap x y) (f 2)) ((vs ∘ Equiv.swap x y) (f 3)) := by
          simp [Equiv.Perm.mul_apply, Function.comp]
      _ = tetVolume ((vs ∘ Equiv.swap x y) 0) ((vs ∘ Equiv.swap x y) 1)
          ((vs ∘ Equiv.swap x y) 2) ((vs ∘ Equiv.swap x y) 3) := ih _
      _ = tetVolume (vs 0) (vs 1) (vs 2) (vs 3) := tetVolume_swap_args x y vs

/-- The four vertex positions of one connectivity row, as a tuple. -/
def tetVerts (m : Mesh) (t : TetNodes) : Fin 4 → Pt :=
  ![nodeAt m.nodes t.n1, nodeAt m.nodes t.n2, nodeAt m.nodes t.n3,
    nodeAt m.nodes t.n4]

/-- Claim C3: for every mesh and every tetrahedron in it, the volume computed
by `get_volumes` equals `|scalar_triple_product(v2-v1, v3-v1, v4-v1)| / 6` of
its four node positions, is non-negative, and is unchanged under any
permutation of the tetrahedron's four node labels. -/
theorem c3_volume_triple_product (m : Mesh) (i : ℕ) (hi : i < m.tetNodes.length) :
    (getVolumes m).getD i 0 =
      specVolume (tetVerts m (m.tetNodes.getD i ⟨0, 0, 0, 0⟩) 0)
        (tetVerts m (m.tetNodes.getD i ⟨0, 0, 0, 0⟩) 1)
        (tetVerts m (m.tetNodes.getD i ⟨0, 0, 0, 0⟩) 2)
        (tetVerts m (m.tetNodes.getD i ⟨0, 0, 0, 0⟩) 3) ∧
    0 ≤ (getVolumes m).getD i 0 ∧
    ∀ σ : Equiv.Perm (Fin 4),
      tetVolume (tetVerts m (m.tetNodes.getD i ⟨0, 0, 0, 0⟩) (σ 0))
        (tetVerts m (m.tetNodes.getD i ⟨0, 0, 0, 0⟩) (σ 1))
        (tetVerts m (m.tetNodes.getD i ⟨0, 0, 0, 0⟩) (σ 2))
        (tetVerts m (m.tetNodes.getD i ⟨0, 0, 0, 0⟩) (σ 3)) =
      (getVolumes m).getD i 0 := by
  have hlen : i < (getVolumes m).length := by
    rw [getVolumes, List.length_map]; exact hi
  have hvol : (getVolumes m).getD i 0 =
      tetVolume (tetVerts m (m.tetNodes.getD i ⟨0, 0, 0, 0⟩) 0)
        (tetVerts m (m.tetNodes.getD i ⟨0, 0, 0, 0⟩) 1)
        (tetVerts m (m.tetNodes.getD i ⟨0, 0, 0, 0⟩) 2)
        (tetVerts m (m.tetNodes.getD i ⟨0, 0, 0, 0⟩) 3) := by
    rw [List.getD_eq_getElem _ _ hlen, List.getD_eq_getElem _ _ hi]
    simp [getVolumes, tetVerts]
  refine ⟨?_, ?_, ?_⟩
  · rw [hvol, tetVolume_eq_specVolume]
  · rw [hvol]; exact tetVolume_nonneg _ _ _ _
  · intro σ
    rw [hvol]
    exact tetVolume_perm σ (tetVerts m (m.tetNodes.getD i ⟨0, 0, 0, 0⟩))

/-- A concrete unit-corner tetrahedron mesh used to instantiate theorems. -/
def meshEx : Mesh where
  npts := 4
  ncells := 1
  nodes := [⟨0, 0, 0⟩, ⟨1, 0, 0⟩, ⟨0, 1, 0⟩, ⟨0, 0, 1⟩]
  tetNodes := [⟨0, 1, 2, 3⟩]
  centroids := []
  volumes := []

theorem c3_volume_triple_product_witness :
    (getVolumes meshEx).getD 0 0 = 1 / 6 ∧
    ((getVolumes meshEx).getD 0 0 =
      specVolume (tetVerts meshEx (meshEx.tetNodes.getD 0 ⟨0, 0, 0, 0⟩) 0)
        (tetVerts meshEx (meshEx.tetNodes.getD 0 ⟨0, 0, 0, 0⟩) 1)
        (tetVerts meshEx (meshEx.tetNodes.getD 0 ⟨0, 0, 0, 0⟩) 2)
        (tetVerts meshEx (meshEx.tetNodes.getD 0 ⟨0, 0, 0, 0⟩) 3) ∧
      0 ≤ (getVolumes meshEx).getD 0 0 ∧
      ∀ σ : Equiv.Perm (Fin 4),
        tetVolume (tetVerts meshEx (meshEx.tetNodes.getD 0 ⟨0, 0, 0, 0⟩) (σ 0))
          (tetVerts meshEx (meshEx.tetNodes.getD 0 ⟨0, 0, 0, 0⟩) (σ 1))
          (tetVerts meshEx (meshEx.tetNodes.getD 0 ⟨0, 0, 0, 0⟩) (σ 2))
          (tetVerts meshEx (meshEx.tetNodes.getD 0 ⟨0, 0, 0, 0⟩) (σ 3)) =
        (getVolumes meshEx).getD 0 0) :=
  ⟨by norm_num [getVolumes, meshEx, tetVolume, tetPv, nodeAt,
      List.getD_cons_zero], c3_volume_triple_product meshEx 0 (by decide)⟩

/-! ### Magnetic property loader (isciml.py lines 110-162)

`np.load` yields a 0-d, 1-d or 2-d array; a 2-d array carries its row list
and its column count `w` (every row has length `w` for a true numpy array;
column reads use a default so no rectangularity side condition is needed).
`kx`, `ky`, `kz` are each either a Python float or a per-cell column, exactly
as the attributes end up after `__init__`. -/

/-- A value that is either a scalar (Python float) or a per-cell array. -/
inductive ScalarOrArray
  | scalar (x : ℚ)
  | array (xs : List ℚ)
deriving DecidableEq

/-- The attributes of a `MagneticProperties` object after `__init__`:
`susceptibility` is only assigned when the source has at least one column
(line 139-140), hence the `Option`. -/
structure MagneticProperties where
  nCells : ℕ
  susceptibility : Option (List ℚ)
  kx : ScalarOrArray
  ky : ScalarOrArray
  kz : ScalarOrArray
deriving DecidableEq

/-- The array returned by `np.load`, by dimensionality. -/
inductive PropSource
  | d0 (x : ℚ)
  | d1 (xs : List ℚ)
  | d2 (rows : List (List ℚ)) (w : ℕ)
deriving DecidableEq

/-- The `ValueError` raised at line 134 when `len(properties.shape) = 0`. -/
inductive PropError
  | incorrectShape
deriving DecidableEq

/-- Column read `properties[:, j]`. -/
def col (rows : List (List ℚ)) (j : ℕ) : List ℚ := rows.map fun r => r.getD j 0

/-- `Bv = np.sqrt(Bx**2 + By**2 + Bz**2)` (line 145), with `np.sqrt` an
explicit function parameter. -/
def ambientBv (B : Pt) (sq : ℚ → ℚ) : ℚ := sq (B.x ^ 2 + B.y ^ 2 + B.z ^ 2)

/-- Lines 139-160 applied to a 2-d array of `rows.length` rows and `w`
columns: column 0 is the susceptibility, columns 1-3 override `kx`, `ky`,
`kz` independently, each absent column falling back to the scalar ambient
unit-direction component. -/
def buildProps (rows : List (List ℚ)) (w : ℕ) (B : Pt) (sq : ℚ → ℚ) :
    MagneticProperties where
  nCells := rows.length
  susceptibility := if 0 < w then some (col rows 0) else none
  kx := if 1 < w then .array (col rows 1) else .scalar (B.x / ambientBv B sq)
  ky := if 2 < w then .array (col rows 2) else .scalar (B.y / ambientBv B sq)
  kz := if 3 < w then .array (col rows 3) else .scalar (B.z / ambientBv B sq)

/-- Embedding of `MagneticProperties.__init__` (lines 122-160) on an already
loaded array: a 0-d array is rejected at line 134; a 1-d array is expanded to
one column (line 137); a 2-d array is used as is. -/
def loadProps (src : PropSource) (B : Pt) (sq : ℚ → ℚ) :
    Except PropError MagneticProperties :=
  match src with
  | .d0 _ => .error .incorrectShape
  | .d1 xs => .ok (buildProps (xs.map fun v => [v]) 1 B sq)
  | .d2 rows w => .ok (buildProps rows w B sq)

theorem col_of_singletons : ∀ xs : List ℚ, col (xs.map fun v => [v]) 0 = xs
  | [] => rfl
  | a :: l => by
      show a :: col (l.map fun v => [v]) 0 = a :: l
      rw [col_of_singletons l]

/-- Claim C5: a non-empty single-column (or 1-d) source yields scalar
`kx, ky, kz` equal to the ambient unit-direction components; a source with
at least four columns yields `kx, ky, kz` verbatim from columns 1-3; and each
of `kx, ky, kz` independently falls back to its scalar ambient component
exactly when its column is absent. -/
theorem c5_direction_cosines (B : Pt) (sq : ℚ → ℚ) :
    (∀ xs : List ℚ, xs ≠ [] →
      loadProps (.d1 xs) B sq = .ok ⟨xs.length, some xs,
        .scalar (B.x / ambientBv B sq), .scalar (B.y / ambientBv B sq),
        .scalar (B.z / ambientBv B sq)⟩) ∧
    (∀ rows : List (List ℚ), rows ≠ [] →
      loadProps (.d2 rows 1) B sq = .ok ⟨rows.length, some (col rows 0),
        .scalar (B.x / ambientBv B sq), .scalar (B.y / ambientBv B sq),
        .scalar (B.z / ambientBv B sq)⟩) ∧
    (∀ (rows : List (List ℚ)) (w : ℕ), rows ≠ [] → 4 ≤ w →
      loadProps (.d2 rows w) B sq = .ok ⟨rows.length, some (col rows 0),
        .array (col rows 1), .array (col rows 2), .array (col rows 3)⟩) ∧
    (∀ (rows : List (List ℚ)) (w : ℕ) (p : MagneticProperties),
      loadProps (.d2 rows w) B sq = .ok p →
      ((1 < w → p.kx = .array (col rows 1)) ∧
        (w ≤ 1 → p.kx = .scalar (B.x / ambientBv B sq))) ∧
      ((2 < w → p.ky = .array (col rows 2)) ∧
        (w ≤ 2 → p.ky = .scalar (B.y / ambientBv B sq))) ∧
      ((3 < w → p.kz = .array (col rows 3)) ∧
        (w ≤ 3 → p.kz = .scalar (B.z / ambientBv B sq)))) := by
  refine ⟨?_, ?_, ?_, ?_⟩
  · intro xs _
    simp [loadProps, buildProps, col_of_singletons]
  · intro rows _
    simp [loadProps, buildProps]
  · intro rows w _ hw
    simp only [loadProps, buildProps, Except.ok.injEq]
    rw [if_pos (by omega), if_pos (by omega), if_pos (by omega), if_pos (by omega)]
  · intro rows w p hp
    simp only [loadProps, Except.ok.injEq] at hp
    subst hp
    refine ⟨⟨fun h1 => ?_, fun h1 => ?_⟩, ⟨fun h2 => ?_, fun h2 => ?_⟩,
      ⟨fun h3 => ?_, fun h3 => ?_⟩⟩ <;>
      simp only [buildProps] <;>
      first
        | rw [if_pos (by omega)]
        | rw [if_neg (by omega)]

theorem c5_direction_cosines_witness :
    loadProps (.d1 [2, 7]) ⟨3, 4, 0⟩ (fun _ => 5) = .ok ⟨2, some [2, 7],
      .scalar (3 / 5), .scalar (4 / 5), .scalar (0 / 5)⟩ ∧
    loadProps (.d2 [[1, 10, 11, 12]] 4) ⟨3, 4, 0⟩ (fun _ => 5) =
      .ok ⟨1, some [1], .array [10], .array [11], .array [12]⟩ := by
  have h := c5_direction_cosines ⟨3, 4, 0⟩ (fun _ => 5)
  constructor
  · rw [h.1 [2, 7] (by decide)]
    simp [ambientBv]
  · rw [h.2.2.1 [[1, 10, 11, 12]] 4 (by decide) (by decide)]
    simp [col]

/-- Claim C9 is false as stated: a zero-length 1-d property array is NOT
rejected; `__init__` completes and produces a properties object with zero
cells (the check at line 129 only tests dimensionality, `len(shape) > 0`,
which a shape-`(0,)` array passes). -/
theorem c9_counterexample :
    loadProps (.d1 ([] : List ℚ)) ⟨1, 0, 0⟩ (fun q => q) =
      .ok ⟨0, some [], .scalar (1 / 1), .scalar (0 / 1), .scalar (0 / 1)⟩ := by
  simp [loadProps, buildProps, col, ambientBv]

/-- Claim C9, amended: only a 0-dimensional source (a scalar, with no axes)
fails the shape check of line 129 with a `ValueError`; an empty array with at
least one axis is accepted and yields a properties object with zero cells. -/
theorem c9_empty_amended :
    (∀ (x : ℚ) (B : Pt) (sq : ℚ → ℚ),
      loadProps (.d0 x) B sq = .error .incorrectShape) ∧
    (∀ (B : Pt) (sq : ℚ → ℚ),
      loadProps (.d1 []) B sq = .ok (buildProps [] 1 B sq) ∧
        (buildProps [] 1 B sq).nCells = 0) ∧
    (∀ (B : Pt) (sq : ℚ → ℚ) (w : ℕ),
      loadProps (.d2 [] w) B sq = .ok (buildProps [] w B sq) ∧
        (buildProps [] w B sq).nCells = 0) := by
  refine ⟨fun x B sq => rfl, fun B sq => ⟨rfl, rfl⟩, fun B sq w => ⟨rfl, rfl⟩⟩

/-- Claim C10: for a 2-d property source, columns beyond index 3 have no
effect: the loaded object equals the one loaded from the source restricted to
its first four columns. -/
theorem c10_extra_columns_ignored (rows : List (List ℚ)) (w : ℕ) (hw : 4 < w)
    (B : Pt) (sq : ℚ → ℚ) :
    loadProps (.d2 rows w) B sq =
      loadProps (.d2 (rows.map fun r => r.take 4) 4) B sq := by
  have hcol : ∀ j, j < 4 → col (rows.map fun r => r.take 4) j = col rows j := by
    intro j hj
    simp only [col, List.map_map]
    refine List.map_congr_left fun r _ => ?_
    simp only [Function.comp_apply, List.getD_eq_getElem?_getD,
      List.getElem?_take_of_lt hj]
  simp only [loadProps, Except.ok.injEq, buildProps]
  rw [if_pos (by omega), if_pos (by omega), if_pos (by omega), if_pos (by omega),
    if_pos (by omega), if_pos (by omega), if_pos (by omega), if_pos (by omega),
    hcol 0 (by omega), hcol 1 (by omega), hcol 2 (by omega), hcol 3 (by omega),
    List.length_map]

theorem c10_extra_columns_ignored_witness :
    loadProps (.d2 [[1, 2, 3, 4, 5]] 5) ⟨1, 0, 0⟩ (fun q => q) =
      loadProps (.d2 [[1, 2, 3, 4]] 4) ⟨1, 0, 0⟩ (fun q => q) := by
  have h := c10_extra_columns_ignored [[1, 2, 3, 4, 5]] 5 (by norm_num)
    ⟨1, 0, 0⟩ (fun q => q)
  simpa using h

/-! ### Kernel buffer packer / solver (isciml.py lines 165-316)

Each `np.zeros((1000000, ...)); buf[0:n] = src` pair is modelled by
`packList`: numpy clips the slice to `min n CAP` rows and the assignment
raises a broadcast `ValueError` unless the source has exactly that many rows
(an array source is never silently truncated; a scalar source broadcasts).
The external `adjoint.adjoint` / `forward.forward` kernels are opaque: they
are function parameters returning the fixed-capacity output buffer, read off
as a function from row index to value. -/

/-- The fixed buffer capacity, the literal `1000000` of lines 217-241. -/
def CAP : ℕ := 1000000

/-- Exceptions `solve` can raise, one constructor per raise site:
`npBroadcast` is numpy's `ValueError` for a shape-mismatched slice
assignment; `missingAttr` is the `AttributeError` when `susceptibility` was
never assigned (0-column source); `adjointNonScalarK` is the exception exit
of lines 272-284 (the code builds a `ValueError`, though the malformed
three-argument `str(...)` call at lines 276-281 actually raises a
`TypeError` first — either way the branch raises and the kernel is never
called). -/
inductive SolveError
  | npBroadcast
  | missingAttr
  | adjointNonScalarK
deriving DecidableEq

/-- `buf = np.zeros(CAP, ...); buf[0:n] = src` for an array source. -/
def packList {α : Type} (src : List α) (n : ℕ) (pad : α) :
    Except SolveError (List α) :=
  if src.length = min n CAP then
    .ok (src ++ List.replicate (CAP - src.length) pad)
  else .error .npBroadcast

/-- The buffer produced by a successful slice assignment. -/
def zeroPad {α : Type} (src : List α) (pad : α) : List α :=
  src ++ List.replicate (CAP - src.length) pad

/-- The per-cell buffer for a direction cosine: a scalar broadcasts over the
first `min n CAP` rows, an array is copied verbatim. -/
def broadcastK (k : ScalarOrArray) (n : ℕ) : List ℚ :=
  match k with
  | .scalar x => List.replicate (min n CAP) x ++ List.replicate (CAP - min n CAP) 0
  | .array xs => zeroPad xs 0

/-- `kx = np.zeros(CAP); kx[0:n] = properties.kx` (lines 289-296): scalar
assignment always succeeds, array assignment is `packList`. -/
def packK (k : ScalarOrArray) (n : ℕ) : Except SolveError (List ℚ) :=
  match k with
  | .scalar x =>
      .ok (List.replicate (min n CAP) x ++ List.replicate (CAP - min n CAP) 0)
  | .array xs => packList xs n 0

/-- Solver state after `MagneticSolver.__init__` (lines 165-209): the
receiver coordinate rows (first three columns of the table) and the ambient
field data. -/
structure MagneticSolver where
  receiverLocations : List Pt
  Bx : ℚ
  By : ℚ
  Bz : ℚ
  Bv : ℚ
  LX : ℚ
  LY : ℚ
  LZ : ℚ

/-- The two values of the `mode` literal. -/
inductive Mode
  | adjoint
  | forward
deriving DecidableEq

/-- The argument tuple passed to `adjoint.adjoint` (lines 252-269), field
for field in source order. -/
structure AdjArgs where
  rhoSus : List ℚ
  ismag : Bool
  istensor : Bool
  kx : ℚ
  ky : ℚ
  kz : ℚ
  LX : ℚ
  LY : ℚ
  LZ : ℚ
  nodes : List Pt
  tets : List TetNodes
  ncells : ℕ
  obsPts : List Pt
  nObs : ℕ
  ctet : List Pt
  vtet : List ℚ

/-- The argument tuple passed to `forward.forward` (lines 298-313). -/
structure FwdArgs where
  rhoSus : List ℚ
  ismag : Bool
  istensor : Bool
  kx : List ℚ
  ky : List ℚ
  kz : List ℚ
  LX : ℚ
  LY : ℚ
  LZ : ℚ
  nodes : List Pt
  tets : List TetNodes
  ncells : ℕ
  obsPts : List Pt
  nObs : ℕ

/-- `tets[0:ncells] = mesh.tet_nodes + 1` (line 230): 1-based connectivity. -/
def tetsPlusOne (ts : List TetNodes) : List TetNodes :=
  ts.map fun t => ⟨t.n1 + 1, t.n2 + 1, t.n3 + 1, t.n4 + 1⟩

/-- Embedding of `MagneticSolver.solve` (lines 211-316).  Buffer packing
follows the source order; the mode dispatch, the scalar check of lines
244-248, and the `[0:ncells]` / `[0:n_obs]` output slices are as in the
source.  `adjK` and `fwdK` are the opaque external kernels. -/
def solve (adjK : AdjArgs → ℕ → ℚ) (fwdK : FwdArgs → ℕ → ℚ)
    (s : MagneticSolver) (m : Mesh) (p : MagneticProperties) (mode : Mode) :
    Except SolveError (List ℚ) := do
  let sus ← match p.susceptibility with
    | some v => Except.ok v
    | none => Except.error SolveError.missingAttr
  let rhoSus0 ← packList sus m.ncells (0 : ℚ)
  let ctet ← packList m.centroids m.ncells (⟨0, 0, 0⟩ : Pt)
  let vtet ← packList m.volumes m.ncells (0 : ℚ)
  let nodesBuf ← packList m.nodes m.npts (⟨0, 0, 0⟩ : Pt)
  let tets ← packList (tetsPlusOne m.tetNodes) m.ncells (⟨0, 0, 0, 0⟩ : TetNodes)
  let nObs := s.receiverLocations.length
  let rhoSus := rhoSus0.map fun v => v * s.Bv
  let obsPts ← packList s.receiverLocations nObs (⟨0, 0, 0⟩ : Pt)
  match mode with
  | .adjoint =>
    match p.kx, p.ky, p.kz with
    | .scalar kx, .scalar ky, .scalar kz =>
      let out := adjK ⟨rhoSus, true, false, kx, ky, kz, s.LX, s.LY, s.LZ,
        nodesBuf, tets, m.ncells, obsPts, nObs, ctet, vtet⟩
      .ok ((List.range (min m.ncells CAP)).map out)
    | _, _, _ => .error .adjointNonScalarK
  | .forward =>
    let kxB ← packK p.kx m.ncells
    let kyB ← packK p.ky m.ncells
    let kzB ← packK p.kz m.ncells
    let out := fwdK ⟨rhoSus, true, false, kxB, kyB, kzB, s.LX, s.LY, s.LZ,
      nodesBuf, tets, m.ncells, obsPts, nObs⟩
    .ok ((List.range (min nObs CAP)).map out)

/-- A mesh whose arrays are sized as its point and cell counts say. -/
def MeshWF (m : Mesh) : Prop :=
  m.nodes.length = m.npts ∧ m.tetNodes.length = m.ncells ∧
    m.centroids.length = m.ncells ∧ m.volumes.length = m.ncells

theorem packList_ok {α : Type} (src : List α) (n : ℕ) (pad : α)
    (hlen : src.length = n) (hn : n ≤ CAP) :
    packList src n pad = .ok (zeroPad src pad) := by
  rw [packList, zeroPad, if_pos]
  rw [hlen, min_eq_left hn]

theorem except_ok_bind {ε α β : Type} (a : α) (f : α → Except ε β) :
    (Except.ok a >>= f) = f a := rfl

theorem packK_ok (k : ScalarOrArray) (n : ℕ) (hn : n ≤ CAP)
    (hk : ∀ xs, k = .array xs → xs.length = n) :
    packK k n = .ok (broadcastK k n) := by
  cases k with
  | scalar x => rfl
  | array xs =>
    rw [packK, broadcastK]
    exact packList_ok xs n 0 (hk xs rfl) hn

/-- Claim C7: a forward-mode solve with `cell_count` cells and
`observation_count` receivers (both within capacity) returns the first
`observation_count` entries of the forward kernel's output, in receiver
order, hence exactly `observation_count` values; scalar direction cosines
are broadcast into per-cell buffers (`broadcastK`) before the kernel call. -/
theorem c7_forward_mode (adjK : AdjArgs → ℕ → ℚ) (fwdK : FwdArgs → ℕ → ℚ)
    (s : MagneticSolver) (m : Mesh) (p : MagneticProperties) (sus : List ℚ)
    (hsus : p.susceptibility = some sus) (hslen : sus.length = m.ncells)
    (hwf : MeshWF m) (hc : m.ncells ≤ CAP) (hn : m.npts ≤ CAP)
    (ho : s.receiverLocations.length ≤ CAP)
    (hkx : ∀ xs, p.kx = .array xs → xs.length = m.ncells)
    (hky : ∀ xs, p.ky = .array xs → xs.length = m.ncells)
    (hkz : ∀ xs, p.kz = .array xs → xs.length = m.ncells) :
    solve adjK fwdK s m p .forward = .ok ((List.range s.receiverLocations.length).map
      (fwdK ⟨(zeroPad sus (0 : ℚ)).map (fun v => v * s.Bv), true, false,
        broadcastK p.kx m.ncells, broadcastK p.ky m.ncells, broadcastK p.kz m.ncells,
        s.LX, s.LY, s.LZ, zeroPad m.nodes (⟨0, 0, 0⟩ : Pt),
        zeroPad (tetsPlusOne m.tetNodes) (⟨0, 0, 0, 0⟩ : TetNodes), m.ncells,
        zeroPad s.receiverLocations (⟨0, 0, 0⟩ : Pt),
        s.receiverLocations.length⟩)) ∧
    ((List.range s.receiverLocations.length).map
      (fwdK ⟨(zeroPad sus (0 : ℚ)).map (fun v => v * s.Bv), true, false,
        broadcastK p.kx m.ncells, broadcastK p.ky m.ncells, broadcastK p.kz m.ncells,
        s.LX, s.LY, s.LZ, zeroPad m.nodes (⟨0, 0, 0⟩ : Pt),
        zeroPad (tetsPlusOne m.tetNodes) (⟨0, 0, 0, 0⟩ : TetNodes), m.ncells,
        zeroPad s.receiverLocations (⟨0, 0, 0⟩ : Pt),
        s.receiverLocations.length⟩)).length = s.receiverLocations.length ∧
    (∀ x, p.kx = .scalar x → broadcastK p.kx m.ncells =
      List.replicate m.ncells x ++ List.replicate (CAP - m.ncells) 0) := by
  obtain ⟨h1, h2, h3, h4⟩ := hwf
  have e1 : packList sus m.ncells (0 : ℚ) = .ok (zeroPad sus 0) :=
    packList_ok _ _ _ hslen hc
  have e2 : packList m.centroids m.ncells (⟨0, 0, 0⟩ : Pt) =
      .ok (zeroPad m.centroids ⟨0, 0, 0⟩) := packList_ok _ _ _ h3 hc
  have e3 : packList m.volumes m.ncells (0 : ℚ) = .ok (zeroPad m.volumes 0) :=
    packList_ok _ _ _ h4 hc
  have e4 : packList m.nodes m.npts (⟨0, 0, 0⟩ : Pt) =
      .ok (zeroPad m.nodes ⟨0, 0, 0⟩) := packList_ok _ _ _ h1 hn
  have e5 : packList (tetsPlusOne m.tetNodes) m.ncells (⟨0, 0, 0, 0⟩ : TetNodes) =
      .ok (zeroPad (tetsPlusOne m.tetNodes) ⟨0, 0, 0, 0⟩) :=
    packList_ok _ _ _ (by rw [tetsPlusOne, List.length_map]; exact h2) hc
  have e6 : packList s.receiverLocations s.receiverLocations.length
      (⟨0, 0, 0⟩ : Pt) = .ok (zeroPad s.receiverLocations ⟨0, 0, 0⟩) :=
    packList_ok _ _ _ rfl ho
  have k1 : packK p.kx m.ncells = .ok (broadcastK p.kx m.ncells) :=
    packK_ok _ _ hc hkx
  have k2 : packK p.ky m.ncells = .ok (broadcastK p.ky m.ncells) :=
    packK_ok _ _ hc hky
  have k3 : packK p.kz m.ncells = .ok (broadcastK p.kz m.ncells) :=
    packK_ok _ _ hc hkz
  refine ⟨?_, by rw [List.length_map, List.length_range], ?_⟩
  · simp only [solve, hsus, except_ok_bind, e1, e2, e3, e4, e5, e6, k1, k2, k3,
      min_eq_left ho]
  · intro x hx
    rw [hx, broadcastK, min_eq_left hc]

/-- Whether a direction cosine holds a per-cell array (the negation of the
`isinstance(..., float)` test of lines 244-248). -/
def ScalarOrArray.isArrayB : ScalarOrArray → Bool
  | .scalar _ => false
  | .array _ => true

/-- Claim C6: an adjoint-mode solve with all-scalar direction cosines returns
the first `cell_count` entries of the adjoint kernel's output, in cell order
(hence exactly `cell_count` values); if any of `kx`, `ky`, `kz` is a per-cell
array, the call raises instead, with the same result for every kernel (no
kernel call is made). -/
theorem c6_adjoint_mode (adjK : AdjArgs → ℕ → ℚ) (fwdK : FwdArgs → ℕ → ℚ)
    (s : MagneticSolver) (m : Mesh) (p : MagneticProperties) (sus : List ℚ)
    (hsus : p.susceptibility = some sus) (hslen : sus.length = m.ncells)
    (hwf : MeshWF m) (hc : m.ncells ≤ CAP) (hn : m.npts ≤ CAP)
    (ho : s.receiverLocations.length ≤ CAP) :
    (∀ a b c : ℚ, p.kx = .scalar a → p.ky = .scalar b → p.kz = .scalar c →
      solve adjK fwdK s m p .adjoint = .ok ((List.range m.ncells).map
        (adjK ⟨(zeroPad sus (0 : ℚ)).map (fun v => v * s.Bv), true, false,
          a, b, c, s.LX, s.LY, s.LZ, zeroPad m.nodes (⟨0, 0, 0⟩ : Pt),
          zeroPad (tetsPlusOne m.tetNodes) (⟨0, 0, 0, 0⟩ : TetNodes), m.ncells,
          zeroPad s.receiverLocations (⟨0, 0, 0⟩ : Pt),
          s.receiverLocations.length, zeroPad m.centroids (⟨0, 0, 0⟩ : Pt),
          zeroPad m.volumes (0 : ℚ)⟩)) ∧
      ((List.range m.ncells).map
        (adjK ⟨(zeroPad sus (0 : ℚ)).map (fun v => v * s.Bv), true, false,
          a, b, c, s.LX, s.LY, s.LZ, zeroPad m.nodes (⟨0, 0, 0⟩ : Pt),
          zeroPad (tetsPlusOne m.tetNodes) (⟨0, 0, 0, 0⟩ : TetNodes), m.ncells,
          zeroPad s.receiverLocations (⟨0, 0, 0⟩ : Pt),
          s.receiverLocations.length, zeroPad m.centroids (⟨0, 0, 0⟩ : Pt),
          zeroPad m.volumes (0 : ℚ)⟩)).length = m.ncells) ∧
    ((p.kx.isArrayB || p.ky.isArrayB || p.kz.isArrayB) = true →
      solve adjK fwdK s m p .adjoint = .error .adjointNonScalarK) := by
  obtain ⟨h1, h2, h3, h4⟩ := hwf
  have e1 : packList sus m.ncells (0 : ℚ) = .ok (zeroPad sus 0) :=
    packList_ok _ _ _ hslen hc
  have e2 : packList m.centroids m.ncells (⟨0, 0, 0⟩ : Pt) =
      .ok (zeroPad m.centroids ⟨0, 0, 0⟩) := packList_ok _ _ _ h3 hc
  have e3 : packList m.volumes m.ncells (0 : ℚ) = .ok (zeroPad m.volumes 0) :=
    packList_ok _ _ _ h4 hc
  have e4 : packList m.nodes m.npts (⟨0, 0, 0⟩ : Pt) =
      .ok (zeroPad m.nodes ⟨0, 0, 0⟩) := packList_ok _ _ _ h1 hn
  have e5 : packList (tetsPlusOne m.tetNodes) m.ncells (⟨0, 0, 0, 0⟩ : TetNodes) =
      .ok (zeroPad (tetsPlusOne m.tetNodes) ⟨0, 0, 0, 0⟩) :=
    packList_ok _ _ _ (by rw [tetsPlusOne, List.length_map]; exact h2) hc
  have e6 : packList s.receiverLocations s.receiverLocations.length
      (⟨0, 0, 0⟩ : Pt) = .ok (zeroPad s.receiverLocations ⟨0, 0, 0⟩) :=
    packList_ok _ _ _ rfl ho
  constructor
  · intro a b c ha hb hc'
    refine ⟨?_, by rw [List.length_map, List.length_range]⟩
    simp only [solve, hsus, except_ok_bind, e1, e2, e3, e4, e5, e6,
      ha, hb, hc', min_eq_left hc]
  · intro hany
    obtain ⟨nc, susF, kx, ky, kz⟩ := p
    simp only at hsus hany
    cases kx <;> cases ky <;> cases kz <;>
      simp only [ScalarOrArray.isArrayB, Bool.or_self, Bool.or_true,
        Bool.true_or, Bool.or_false, Bool.false_or] at hany <;>
      simp only [solve, hsus, except_ok_bind, e1, e2, e3, e4, e5, e6] <;>
      exact Bool.noConfusion hany

theorem except_error_bind {ε α β : Type} (e : ε) (f : α → Except ε β) :
    ((Except.error e : Except ε α) >>= f) = Except.error e := rfl

/-- Claim C4 concerns behavior the code does not implement: `solve` has no
capacity check.  What the code actually does for an over-capacity input is
raise numpy's broadcast `ValueError` while packing the fixed 1,000,000-row
buffers (the slice target clips to `CAP` rows while the source keeps its full
length), before any kernel call — it neither raises a dedicated capacity
error nor silently truncates.  This theorem proves that behavior: with more
than `CAP` cells (first conjunct) or more than `CAP` receivers (second
conjunct), `solve` returns the broadcast error, for every kernel and mode. -/
theorem c4_overcapacity_buffer_packing (adjK : AdjArgs → ℕ → ℚ)
    (fwdK : FwdArgs → ℕ → ℚ) (s : MagneticSolver) (m : Mesh)
    (p : MagneticProperties) (sus : List ℚ) (mode : Mode)
    (hsus : p.susceptibility = some sus) (hslen : sus.length = m.ncells) :
    (CAP < m.ncells → solve adjK fwdK s m p mode = .error .npBroadcast) ∧
    (MeshWF m → m.ncells ≤ CAP → m.npts ≤ CAP →
      CAP < s.receiverLocations.length →
      solve adjK fwdK s m p mode = .error .npBroadcast) := by
  constructor
  · intro hover
    have f1 : packList sus m.ncells (0 : ℚ) = .error .npBroadcast := by
      rw [packList, if_neg]
      rw [hslen, min_eq_right (Nat.le_of_lt hover)]
      omega
    simp only [solve, hsus, except_ok_bind, f1, except_error_bind]
  · intro hwf hc hn hover
    obtain ⟨h1, h2, h3, h4⟩ := hwf
    have e1 : packList sus m.ncells (0 : ℚ) = .ok (zeroPad sus 0) :=
      packList_ok _ _ _ hslen hc
    have e2 : packList m.centroids m.ncells (⟨0, 0, 0⟩ : Pt) =
        .ok (zeroPad m.centroids ⟨0, 0, 0⟩) := packList_ok _ _ _ h3 hc
    have e3 : packList m.volumes m.ncells (0 : ℚ) = .ok (zeroPad m.volumes 0) :=
      packList_ok _ _ _ h4 hc
    have e4 : packList m.nodes m.npts (⟨0, 0, 0⟩ : Pt) =
        .ok (zeroPad m.nodes ⟨0, 0, 0⟩) := packList_ok _ _ _ h1 hn
    have e5 : packList (tetsPlusOne m.tetNodes) m.ncells
        (⟨0, 0, 0, 0⟩ : TetNodes) =
        .ok (zeroPad (tetsPlusOne m.tetNodes) ⟨0, 0, 0, 0⟩) :=
      packList_ok _ _ _ (by rw [tetsPlusOne, List.length_map]; exact h2) hc
    have f6 : packList s.receiverLocations s.receiverLocations.length
        (⟨0, 0, 0⟩ : Pt) = .error .npBroadcast := by
      rw [packList, if_neg]
      rw [min_eq_right (Nat.le_of_lt hover)]
      omega
    simp only [solve, hsus, except_ok_bind, e1, e2, e3, e4, e5, f6,
      except_error_bind]

theorem c4_overcapacity_buffer_packing_witness :
    solve (fun _ _ => 0) (fun _ _ => 0) ⟨[], 0, 0, 0, 0, 0, 0, 0⟩
      ⟨0, CAP + 1, [], [], [], []⟩
      ⟨CAP + 1, some (List.replicate (CAP + 1) 0), .scalar 0, .scalar 0,
        .scalar 0⟩ .adjoint = .error .npBroadcast ∧
    solve (fun _ _ => 0) (fun _ _ => 0)
      ⟨List.replicate (CAP + 1) ⟨0, 0, 0⟩, 0, 0, 0, 0, 0, 0, 0⟩
      ⟨0, 0, [], [], [], []⟩ ⟨0, some [], .scalar 0, .scalar 0, .scalar 0⟩
      .forward = .error .npBroadcast :=
  ⟨(c4_overcapacity_buffer_packing (fun _ _ => 0) (fun _ _ => 0)
      ⟨[], 0, 0, 0, 0, 0, 0, 0⟩ ⟨0, CAP + 1, [], [], [], []⟩
      ⟨CAP + 1, some (List.replicate (CAP + 1) 0), .scalar 0, .scalar 0,
        .scalar 0⟩ (List.replicate (CAP + 1) 0) .adjoint rfl
      (by rw [List.length_replicate])).1 (Nat.lt_succ_self CAP),
    (c4_overcapacity_buffer_packing (fun _ _ => 0) (fun _ _ => 0)
      ⟨List.replicate (CAP + 1) ⟨0, 0, 0⟩, 0, 0, 0, 0, 0, 0, 0⟩
      ⟨0, 0, [], [], [], []⟩ ⟨0, some [], .scalar 0, .scalar 0, .scalar 0⟩
      [] .forward rfl rfl).2 ⟨rfl, rfl, rfl, rfl⟩ (Nat.zero_le CAP)
      (Nat.zero_le CAP)
      (by rw [List.length_replicate]; exact Nat.lt_succ_self CAP)⟩

/-- A well-formed one-tetrahedron mesh used to instantiate solver theorems. -/
def meshSolveEx : Mesh where
  npts := 4
  ncells := 1
  nodes := [⟨0, 0, 0⟩, ⟨1, 0, 0⟩, ⟨0, 1, 0⟩, ⟨0, 0, 1⟩]
  tetNodes := [⟨0, 1, 2, 3⟩]
  centroids := [⟨1 / 4, 1 / 4, 1 / 4⟩]
  volumes := [1 / 6]

/-- A solver with one receiver and ambient field `(3, 4, 0)`. -/
def solverEx : MagneticSolver where
  receiverLocations := [⟨0, 0, 2⟩]
  Bx := 3
  By := 4
  Bz := 0
  Bv := 5
  LX := 3 / 5
  LY := 4 / 5
  LZ := 0

/-- One-cell properties with scalar direction cosines. -/
def propsScalarEx : MagneticProperties where
  nCells := 1
  susceptibility := some [2]
  kx := .scalar (3 / 5)
  ky := .scalar (4 / 5)
  kz := .scalar 0

/-- One-cell properties with a per-cell `kx` array. -/
def propsArrayEx : MagneticProperties where
  nCells := 1
  susceptibility := some [2]
  kx := .array [1]
  ky := .scalar (4 / 5)
  kz := .scalar 0

theorem c6_adjoint_mode_witness :
    solve (fun _ i => (i : ℚ)) (fun _ _ => 0) solverEx meshSolveEx
      propsScalarEx .adjoint =
      .ok ((List.range meshSolveEx.ncells).map
        ((fun (_ : AdjArgs) (i : ℕ) => (i : ℚ)) ⟨(zeroPad [2] (0 : ℚ)).map
            (fun v => v * solverEx.Bv), true, false, 3 / 5, 4 / 5, 0,
          solverEx.LX, solverEx.LY, solverEx.LZ,
          zeroPad meshSolveEx.nodes (⟨0, 0, 0⟩ : Pt),
          zeroPad (tetsPlusOne meshSolveEx.tetNodes) (⟨0, 0, 0, 0⟩ : TetNodes),
          meshSolveEx.ncells, zeroPad solverEx.receiverLocations (⟨0, 0, 0⟩ : Pt),
          solverEx.receiverLocations.length,
          zeroPad meshSolveEx.centroids (⟨0, 0, 0⟩ : Pt),
          zeroPad meshSolveEx.volumes (0 : ℚ)⟩)) ∧
    solve (fun _ i => (i : ℚ)) (fun _ _ => 0) solverEx meshSolveEx
      propsArrayEx .adjoint = .error .adjointNonScalarK := by
  have hs := c6_adjoint_mode (fun _ i => (i : ℚ)) (fun _ _ => 0) solverEx
    meshSolveEx propsScalarEx [2] rfl rfl (show MeshWF meshSolveEx from ⟨rfl, rfl, rfl, rfl⟩) (by decide)
    (by decide) (by decide)
  have ha := c6_adjoint_mode (fun _ i => (i : ℚ)) (fun _ _ => 0) solverEx
    meshSolveEx propsArrayEx [2] rfl rfl (show MeshWF meshSolveEx from ⟨rfl, rfl, rfl, rfl⟩) (by decide)
    (by decide) (by decide)
  exact ⟨(hs.1 (3 / 5) (4 / 5) 0 rfl rfl rfl).1, ha.2 rfl⟩

theorem c7_forward_mode_witness :
    solve (fun _ _ => 0) (fun _ i => (i : ℚ)) solverEx meshSolveEx
      propsScalarEx .forward =
      .ok ((List.range solverEx.receiverLocations.length).map
        ((fun (_ : FwdArgs) (i : ℕ) => (i : ℚ)) ⟨(zeroPad [2] (0 : ℚ)).map
            (fun v => v * solverEx.Bv), true, false,
          broadcastK propsScalarEx.kx meshSolveEx.ncells,
          broadcastK propsScalarEx.ky meshSolveEx.ncells,
          broadcastK propsScalarEx.kz meshSolveEx.ncells,
          solverEx.LX, solverEx.LY, solverEx.LZ,
          zeroPad meshSolveEx.nodes (⟨0, 0, 0⟩ : Pt),
          zeroPad (tetsPlusOne meshSolveEx.tetNodes) (⟨0, 0, 0, 0⟩ : TetNodes),
          meshSolveEx.ncells, zeroPad solverEx.receiverLocations (⟨0, 0, 0⟩ : Pt),
          solverEx.receiverLocations.length⟩)) ∧
    broadcastK propsScalarEx.kx meshSolveEx.ncells =
      List.replicate meshSolveEx.ncells (3 / 5) ++
        List.replicate (CAP - meshSolveEx.ncells) 0 := by
  have h := c7_forward_mode (fun _ _ => 0) (fun _ i => (i : ℚ)) solverEx
    meshSolveEx propsScalarEx [2] rfl rfl (show MeshWF meshSolveEx from ⟨rfl, rfl, rfl, rfl⟩) (by decide)
    (by decide) (by decide) (fun xs hx => by simp [propsScalarEx] at hx)
    (fun xs hx => by simp [propsScalarEx] at hx)
    (fun xs hx => by simp [propsScalarEx] at hx)
  exact ⟨h.1, h.2.2 (3 / 5) rfl⟩

/-! ### Driver batch loop (isciml.py lines 403-442)

The portion after the glob: `total_files` is the number of discovered
property files; a process count exceeding it exits with an error before any
property file is opened; otherwise the process loads and solves exactly the
files of its partition slice, in order. -/

/-- Fatal driver exits: `insufficientFiles` is the `sys.exit(1)` at line 411;
the other two wrap a per-file failure of the loop body. -/
inductive DriverError
  | insufficientFiles
  | propLoad (e : PropError)
  | solveFail (e : SolveError)
deriving DecidableEq

/-- Embedding of lines 403-442: the file-count check, the partition slice
`numpy_files[start_file_index:end_file_index]`, and the per-file
load-then-solve loop (file opening happens only inside the loop). -/
def iscimlBatch (adjK : AdjArgs → ℕ → ℚ) (fwdK : FwdArgs → ℕ → ℚ)
    (s : MagneticSolver) (m : Mesh) (files : List PropSource) (B : Pt)
    (sq : ℚ → ℚ) (size rank : ℕ) (mode : Mode) :
    Except DriverError (List (List ℚ)) :=
  let totalFiles := files.length
  if totalFiles < size then .error .insufficientFiles
  else
    ((files.drop (startIdx totalFiles size rank)).take
        (endIdx totalFiles size rank - startIdx totalFiles size rank)).mapM
      fun f => do
        let p ← (loadProps f B sq).mapError DriverError.propLoad
        (solve adjK fwdK s m p mode).mapError DriverError.solveFail

/-- Claim C8: whenever the process count exceeds the number of property
files, the run fails with the insufficient-files error; the result is this
error for every kernel, mesh, solver, file contents and mode, so no property
file is opened and no solve is attempted. -/
theorem c8_insufficient_files (adjK : AdjArgs → ℕ → ℚ) (fwdK : FwdArgs → ℕ → ℚ)
    (s : MagneticSolver) (m : Mesh) (files : List PropSource) (B : Pt)
    (sq : ℚ → ℚ) (size rank : ℕ) (mode : Mode)
    (h : files.length < size) :
    iscimlBatch adjK fwdK s m files B sq size rank mode =
      .error .insufficientFiles := by
  rw [iscimlBatch, if_pos h]

theorem c8_insufficient_files_witness :
    iscimlBatch (fun _ _ => 0) (fun _ _ => 0) ⟨[], 0, 0, 0, 0, 0, 0, 0⟩
      ⟨0, 0, [], [], [], []⟩ [.d1 [1]] ⟨1, 0, 0⟩ (fun q => q) 2 0 .adjoint =
      .error .insufficientFiles :=
  c8_insufficient_files _ _ _ _ _ _ _ 2 0 .adjoint (by decide)

end Isciml
